import Mathlib

/-!
Shallow embedding of the 3D tree visualization engine of `threedview.py`
(classes `TreeNode3D` and `TreeView3D`): the scene node model, the
camera/projection pipeline, the depth-ordered render and hit-test orders,
the pointer interaction handlers, the tree loaders and the recursive
layout pass.  Python floats are modelled as real numbers, the
insertion-ordered `dict` of nodes as an association list, and the random
number generator as an explicit parameter supplying the values drawn in
`TreeNode3D.__init__`.  Functions whose Python counterpart can recurse
without bound (the layout pass and the descendant-highlighting walk) take
explicit fuel and return `none` when it runs out.
-/

namespace ThreeDView

/-- RGB color triple (the engine's `QColor`; alpha is derived per frame). -/
structure Color where
  red : ℤ
  green : ℤ
  blue : ℤ
deriving DecidableEq

/-- The values drawn from the random source during `TreeNode3D.__init__`
for a single node: initial position, color, and box dimensions. -/
structure RandInit where
  rx : ℝ
  ry : ℝ
  rz : ℝ
  rcolor : Color
  rwidth : ℝ
  rheight : ℝ
  rdepth : ℝ

/-- `TreeNode3D`: a node in 3D space with position, projected position,
dimensions, hierarchy links and interaction state. The dynamically
assigned Python attribute `size` is modelled as a field initialized to 0. -/
structure TreeNode3D where
  title : String
  name : String
  node_id : String
  parent_id : Option String
  description : String
  text : String
  x : ℝ
  y : ℝ
  z : ℝ
  px : ℝ
  py : ℝ
  color : Color
  width : ℝ
  height : ℝ
  depth : ℝ
  level : ℕ
  size : ℝ
  hovered : Bool
  dragging : Bool
  orig_x : ℝ
  orig_y : ℝ
  orig_z : ℝ

/-- `TreeNode3D.__init__`: position, color and dimensions come from the
random source `r`; the drag anchor `orig_*` starts at the position. -/
def TreeNode3D.init (r : RandInit) (title node_id : String)
    (parent_id : Option String) : TreeNode3D :=
  { title := title, name := "", node_id := node_id, parent_id := parent_id,
    description := "", text := "",
    x := r.rx, y := r.ry, z := r.rz, px := 0, py := 0,
    color := r.rcolor, width := r.rwidth, height := r.rheight,
    depth := r.rdepth, level := 0, size := 0,
    hovered := false, dragging := false,
    orig_x := r.rx, orig_y := r.ry, orig_z := r.rz }

instance : Inhabited TreeNode3D :=
  ⟨TreeNode3D.init ⟨0, 0, 0, ⟨0, 0, 0⟩, 0, 0, 0⟩ "" "" none⟩

/-- `TreeNode3D.set_position`. -/
def TreeNode3D.set_position (n : TreeNode3D) (x y z : ℝ) : TreeNode3D :=
  { n with x := x, y := y, z := z }

/-- `TreeNode3D.store_original_position`. -/
def TreeNode3D.store_original_position (n : TreeNode3D) : TreeNode3D :=
  { n with orig_x := n.x, orig_y := n.y, orig_z := n.z }

/-- `TreeNode3D.update_position_by_offset`. -/
def TreeNode3D.update_position_by_offset (n : TreeNode3D) (dx dy dz : ℝ) :
    TreeNode3D :=
  { n with x := n.orig_x + dx, y := n.orig_y + dy, z := n.orig_z + dz }

/-- The engine's node dictionary `self.nodes`: an insertion-ordered map
from node id to node, modelled as an association list. -/
abbrev NodesMap := List (String × TreeNode3D)

/-- Dictionary read `m[k]`, as an `Option`. -/
def dictLookup : NodesMap → String → Option TreeNode3D
  | [], _ => none
  | (k', v) :: rest, k => if k' = k then some v else dictLookup rest k

/-- Dictionary write `m[k] = v`: replaces the value in place when the key
is present (Python dicts keep the original insertion position), otherwise
appends the new entry. -/
def dictInsert : NodesMap → String → TreeNode3D → NodesMap
  | [], k, v => [(k, v)]
  | (k', v') :: rest, k, v =>
    if k' = k then (k, v) :: rest else (k', v') :: dictInsert rest k v

/-- In-place mutation of the node object stored under key `k`
(Python mutates the object held in the dict; the keys are untouched). -/
def dictModify : NodesMap → String → (TreeNode3D → TreeNode3D) → NodesMap
  | [], _, _ => []
  | (k', v) :: rest, k, f =>
    if k' = k then (k', f v) :: dictModify rest k f
    else (k', v) :: dictModify rest k f

/-- The widget state of `TreeView3D`: camera settings, the scene
node/connection sets, selection, hover, and mouse bookkeeping. -/
structure ViewState where
  camera_distance : ℝ
  rotation_x : ℝ
  rotation_y : ℝ
  rotation_z : ℝ
  scale : ℝ
  center_x : ℝ
  center_y : ℝ
  nodes : NodesMap
  connections : List (String × String)
  selected_node : Option String
  hovered_node : Option String
  mouse_down : Bool
  last_mouse_pos : ℤ × ℤ
  current_mouse_pos : ℤ × ℤ

/-- `TreeView3D.project_point`: rotate about X, then Y, then Z, then apply
perspective with focal length 1000; a point at or behind the camera plane
maps to the viewport center. -/
noncomputable def project_point (s : ViewState) (x y z : ℝ) : ℝ × ℝ :=
  let y2 := y * Real.cos s.rotation_x - z * Real.sin s.rotation_x
  let z2 := y * Real.sin s.rotation_x + z * Real.cos s.rotation_x
  let x3 := x * Real.cos s.rotation_y + z2 * Real.sin s.rotation_y
  let z3 := -x * Real.sin s.rotation_y + z2 * Real.cos s.rotation_y
  let x4 := x3 * Real.cos s.rotation_z - y2 * Real.sin s.rotation_z
  let y4 := x3 * Real.sin s.rotation_z + y2 * Real.cos s.rotation_z
  if z3 + s.camera_distance ≤ 0 then
    (s.center_x, s.center_y)
  else
    let scale_factor := 1000 / (z3 + s.camera_distance) * s.scale
    (x4 * scale_factor + s.center_x, y4 * scale_factor + s.center_y)

/-- Rotation of a 3D point about the X axis by `t` (specification side). -/
noncomputable def rotX (t : ℝ) (p : ℝ × ℝ × ℝ) : ℝ × ℝ × ℝ :=
  (p.1, p.2.1 * Real.cos t - p.2.2 * Real.sin t,
   p.2.1 * Real.sin t + p.2.2 * Real.cos t)

/-- Rotation of a 3D point about the Y axis by `t` (specification side). -/
noncomputable def rotY (t : ℝ) (p : ℝ × ℝ × ℝ) : ℝ × ℝ × ℝ :=
  (p.1 * Real.cos t + p.2.2 * Real.sin t, p.2.1,
   -p.1 * Real.sin t + p.2.2 * Real.cos t)

/-- Rotation of a 3D point about the Z axis by `t` (specification side). -/
noncomputable def rotZ (t : ℝ) (p : ℝ × ℝ × ℝ) : ℝ × ℝ × ℝ :=
  (p.1 * Real.cos t - p.2.1 * Real.sin t,
   p.1 * Real.sin t + p.2.1 * Real.cos t, p.2.2)

/-- The projection as the specification states it: rotate about X by
`rotation_x`, then about Y, then about Z, each applied to the already
rotated coordinates; with `z'` the depth after the X and Y rotations,
return the viewport center when `z' + camera_distance ≤ 0` and otherwise
scale the fully rotated coordinates by `1000 / (z' + camera_distance) *
scale` and translate by the center. -/
noncomputable def project_point_spec (s : ViewState) (x y z : ℝ) : ℝ × ℝ :=
  let pXY := rotY s.rotation_y (rotX s.rotation_x (x, y, z))
  let zDepth := pXY.2.2
  let pFull := rotZ s.rotation_z pXY
  if zDepth + s.camera_distance ≤ 0 then
    (s.center_x, s.center_y)
  else
    let sf := 1000 / (zDepth + s.camera_distance) * s.scale
    (pFull.1 * sf + s.center_x, pFull.2.1 * sf + s.center_y)

/-- Stable ascending insertion by a real-valued key: the new element goes
in front of the first element whose key is not smaller, so elements with
equal keys keep their original relative order.  This is the semantics of
Python's stable `sorted(..., key=k)`. -/
noncomputable def insertAscBy {α : Type} (key : α → ℝ) (a : α) :
    List α → List α
  | [] => [a]
  | b :: l => if key a ≤ key b then a :: b :: l else b :: insertAscBy key a l

/-- Stable sort by a real-valued key in ascending order, the semantics of
Python's `sorted(..., key=k)`. -/
noncomputable def sortAscBy {α : Type} (key : α → ℝ) : List α → List α
  | [] => []
  | a :: l => insertAscBy key a (sortAscBy key l)

/-- Stable descending insertion by a real-valued key: elements with equal
keys keep their original relative order.  This is the semantics of
Python's stable `sorted(..., key=k, reverse=True)`. -/
noncomputable def insertDescBy {α : Type} (key : α → ℝ) (a : α) :
    List α → List α
  | [] => [a]
  | b :: l => if key b ≤ key a then a :: b :: l else b :: insertDescBy key a l

/-- Stable sort by a real-valued key in descending order, the semantics
of Python's `sorted(..., key=k, reverse=True)`. -/
noncomputable def sortDescBy {α : Type} (key : α → ℝ) : List α → List α
  | [] => []
  | a :: l => insertDescBy key a (sortDescBy key l)

/-- The depth key `node.z + self.camera_distance` used by both the
painter's sort in `paintEvent` and the hit-test sort in
`_find_node_at_position`. -/
noncomputable def depthKey (s : ViewState) (n : TreeNode3D) : ℝ :=
  n.z + s.camera_distance

/-- The back-to-front rendering order of `paintEvent`: the node values
sorted by `z + camera_distance` in descending order (`reverse=True`). -/
noncomputable def renderOrder (s : ViewState) : List TreeNode3D :=
  sortDescBy (depthKey s) (s.nodes.map Prod.snd)

/-- The front-to-back hit-testing order of `_find_node_at_position`: the
node values sorted by `z + camera_distance` in ascending order. -/
noncomputable def hitOrder (s : ViewState) : List TreeNode3D :=
  sortAscBy (depthKey s) (s.nodes.map Prod.snd)

/-- Python `int()` applied to a float: truncation toward zero. -/
noncomputable def intTrunc (r : ℝ) : ℤ :=
  if 0 ≤ r then ⌊r⌋ else ⌈r⌉

/-- The rectangle test of `_find_node_at_position` for one node: the
depth-scaled width and height, the truncated top-left corner, and the
four comparisons `x >= rect_x and x <= rect_x + width and y >= rect_y and
y <= rect_y + height`. -/
noncomputable def hitTest (s : ViewState) (x y : ℤ) (n : TreeNode3D) : Prop :=
  let z_factor := 800 / (n.z + s.camera_distance + 800)
  let width := n.width * z_factor * s.scale
  let height := n.height * z_factor * s.scale
  let rect_x := intTrunc (n.px - width / 2)
  let rect_y := intTrunc (n.py - height / 2)
  (rect_x : ℝ) ≤ (x : ℝ) ∧ (x : ℝ) ≤ (rect_x : ℝ) + width ∧
    (rect_y : ℝ) ≤ (y : ℝ) ∧ (y : ℝ) ≤ (rect_y : ℝ) + height

noncomputable instance (s : ViewState) (x y : ℤ) (n : TreeNode3D) :
    Decidable (hitTest s x y n) := by
  unfold hitTest; infer_instance

/-- The scan of `_find_node_at_position` over the front-to-back sorted
node list: the first node whose rectangle contains the point wins. -/
noncomputable def findNodeInList (s : ViewState) (x y : ℤ) :
    List TreeNode3D → Option String
  | [] => none
  | n :: rest =>
    if hitTest s x y n then some n.node_id else findNodeInList s x y rest

/-- `TreeView3D._find_node_at_position`. -/
noncomputable def find_node_at_position (s : ViewState) (x y : ℤ) :
    Option String :=
  findNodeInList s x y (hitOrder s)

/-- Python truthiness of the hit-test result `selected` in
`mousePressEvent` (`if selected and selected in self.nodes`): not `None`,
not the empty string, and present in the node dictionary. -/
def selectedTruthy (m : NodesMap) : Option String → Prop
  | none => False
  | some sid => sid ≠ "" ∧ (dictLookup m sid).isSome = true

instance (m : NodesMap) (o : Option String) : Decidable (selectedTruthy m o) := by
  cases o <;> unfold selectedTruthy <;> infer_instance

/-- `TreeView3D.mousePressEvent`: record the press, hit-test, and when the
hit differs from the current selection adopt it; a truthy hit node is
armed for dragging and its position is captured as the drag anchor.  The
hit test runs after `mouse_down`/`last_mouse_pos` are recorded in the
source; it reads neither field, so it is applied to `s` directly. -/
noncomputable def mousePressEvent (s : ViewState) (pos : ℤ × ℤ) : ViewState :=
  let s1 := { s with mouse_down := true, last_mouse_pos := pos }
  let selected := find_node_at_position s pos.1 pos.2
  if selected ≠ s1.selected_node then
    let s2 := { s1 with selected_node := selected }
    if selectedTruthy s2.nodes selected then
      match selected with
      | some sid =>
        { s2 with nodes := dictModify s2.nodes sid fun n =>
            TreeNode3D.store_original_position { n with dragging := true } }
      | none => s2
    else s2
  else s1

/-- The per-node effect of the `mouseReleaseEvent` loop: clear the
dragging flag when it is set, otherwise leave the node untouched. -/
def clearDragging (v : TreeNode3D) : TreeNode3D :=
  if v.dragging then { v with dragging := false } else v

/-- `TreeView3D.mouseReleaseEvent`: drop the mouse flag and clear the
dragging flag on every node that has it. -/
def mouseReleaseEvent (s : ViewState) : ViewState :=
  { s with mouse_down := false,
           nodes := s.nodes.map fun p => (p.1, clearDragging p.2) }

/-- The depth-dependent drag sensitivity of `mouseMoveEvent`:
`2.0 / (z_factor * scale)` with `z_factor = 800 / (z + camera_distance + 800)`. -/
noncomputable def drag_sensitivity (s : ViewState) (n : TreeNode3D) : ℝ :=
  2 / (800 / (n.z + s.camera_distance + 800) * s.scale)

/-- The world-space X offset of `mouseMoveEvent`:
`(dx * cos(-rotation_y) - dy * sin(-rotation_y)) * sensitivity`. -/
noncomputable def drag_world_dx (s : ViewState) (n : TreeNode3D) (dx dy : ℤ) : ℝ :=
  ((dx : ℝ) * Real.cos (-s.rotation_y) - (dy : ℝ) * Real.sin (-s.rotation_y)) *
    drag_sensitivity s n

/-- The world-space Z offset of `mouseMoveEvent`:
`(dx * sin(-rotation_y) + dy * cos(-rotation_y)) * sensitivity`. -/
noncomputable def drag_world_dz (s : ViewState) (n : TreeNode3D) (dx dy : ℤ) : ℝ :=
  ((dx : ℝ) * Real.sin (-s.rotation_y) + (dy : ℝ) * Real.cos (-s.rotation_y)) *
    drag_sensitivity s n

/-- `TreeView3D.mouseMoveEvent`: while the button is down, either drag the
selected node (adding the world offset of this event's pointer delta to
the drag anchor) or rotate the camera; otherwise update the hover id from
a fresh hit-test.  `self.current_mouse_pos = event.pos()` is recorded in
every branch; no later read in the handler depends on it. -/
noncomputable def mouseMoveEvent (s : ViewState) (pos : ℤ × ℤ) : ViewState :=
  if s.mouse_down then
    let dx : ℤ := pos.1 - s.last_mouse_pos.1
    let dy : ℤ := pos.2 - s.last_mouse_pos.2
    let draggingNode : Option (String × TreeNode3D) :=
      match s.selected_node with
      | some sid =>
        match dictLookup s.nodes sid with
        | some n => if n.dragging then some (sid, n) else none
        | none => none
      | none => none
    match draggingNode with
    | some (sid, n) =>
      { s with
        current_mouse_pos := pos,
        nodes := dictModify s.nodes sid fun m =>
          m.update_position_by_offset (drag_world_dx s n dx dy) 0
            (drag_world_dz s n dx dy),
        last_mouse_pos := pos }
    | none =>
      { s with
        current_mouse_pos := pos,
        rotation_y := s.rotation_y + (dx : ℝ) * 0.01,
        rotation_x := s.rotation_x + (dy : ℝ) * 0.01,
        last_mouse_pos := pos }
  else
    { s with
      current_mouse_pos := pos,
      hovered_node := find_node_at_position s pos.1 pos.2 }

/-- A drag is in flight on node `sid` holding node value `n`: the button
is down, `sid` is the selection, and its node has the dragging flag. -/
def InDrag (s : ViewState) (sid : String) (n : TreeNode3D) : Prop :=
  s.mouse_down = true ∧ s.selected_node = some sid ∧
    dictLookup s.nodes sid = some n ∧ n.dragging = true

/-- A concrete node with the dragging flag set, used by the interaction
witnesses. -/
def wNodeA : TreeNode3D :=
  { TreeNode3D.init ⟨1, 2, 3, ⟨10, 20, 30⟩, 40, 20, 10⟩ "A" "a" none with
      dragging := true }

/-- A concrete idle node used by the interaction witnesses. -/
def wNodeB : TreeNode3D :=
  TreeNode3D.init ⟨4, 5, 6, ⟨10, 20, 30⟩, 40, 20, 10⟩ "B" "b" (some "a")

/-- A concrete state with a drag in flight on node `a`. -/
def wStateDrag : ViewState :=
  { camera_distance := 700, rotation_x := 0, rotation_y := 0, rotation_z := 0,
    scale := 1, center_x := 300, center_y := 200,
    nodes := [("a", wNodeA), ("b", wNodeB)], connections := [("a", "b")],
    selected_node := some "a", hovered_node := none,
    mouse_down := true, last_mouse_pos := (10, 10),
    current_mouse_pos := (10, 10) }

/-- A concrete idle state with no drag in flight. -/
def wStateIdle : ViewState :=
  { wStateDrag with
    nodes := [("b", wNodeB)], selected_node := none, mouse_down := false }

/-- A concrete node whose projected rectangle is `[92,108] × [92,108]`:
with `z = 100`, `camera_distance = 700` and `scale = 1` the depth factor
is `1/2`, so the 32-unit box projects to a 16-pixel square around the
stored projected center `(100, 100)`. -/
def wNodeP : TreeNode3D :=
  { TreeNode3D.init ⟨0, 0, 100, ⟨0, 0, 0⟩, 32, 32, 10⟩ "P" "a" none with
      px := 100, py := 100 }

/-- A concrete state in which node `a` is already the selected node and
its projected rectangle contains the point `(100, 100)`. -/
def wStatePress : ViewState :=
  { camera_distance := 700, rotation_x := 0, rotation_y := 0, rotation_z := 0,
    scale := 1, center_x := 300, center_y := 200,
    nodes := [("a", wNodeP)], connections := [],
    selected_node := some "a", hovered_node := none,
    mouse_down := false, last_mouse_pos := (0, 0),
    current_mouse_pos := (0, 0) }

/-- The same scene with nothing selected yet. -/
def wStatePressFresh : ViewState :=
  { wStatePress with selected_node := none }

/-- The child list used by `_layout_level` and
`_add_children_recursive`: the `dest` of every connection whose `src` is
the given node id, in connection order. -/
def childrenOf (cs : List (String × String)) (node_id : String) :
    List String :=
  (cs.filter fun c => decide (c.1 = node_id)).map Prod.snd

mutual
/-- `TreeView3D._layout_level` with explicit fuel: find the children of
`node_id`; with no children return, otherwise check the parent is in the
dictionary and run the child loop at radius `120 / (level + 1)`.
`none` models fuel exhaustion (the Python recursion is unbounded) or a
`KeyError` on a missing node id. -/
noncomputable def layout_level (cs : List (String × String)) :
    ℕ → String → ℕ → NodesMap → Option NodesMap
  | 0, _, _, _ => none
  | fuel + 1, node_id, level, m =>
    let children := childrenOf cs node_id
    if children = [] then some m
    else
      match dictLookup m node_id with
      | none => none
      | some _ =>
        layout_children cs fuel node_id level children.length 0 children m
  termination_by fuel _ _ _ => (fuel, 0)

/-- The `enumerate(children)` loop of `_layout_level`: `i` is the running
index and `n` the total child count; the parent is re-read from the map
at each step (the Python loop holds a reference to the mutable parent
object, whose fields reflect any intervening mutation). -/
noncomputable def layout_children (cs : List (String × String)) :
    ℕ → String → ℕ → ℕ → ℕ → List String → NodesMap → Option NodesMap
  | _, _, _, _, _, [], m => some m
  | fuel, node_id, level, n, i, child_id :: rest, m =>
    match dictLookup m node_id, dictLookup m child_id with
    | some parent, some _ =>
      let radius : ℝ := 120 / ((level : ℝ) + 1)
      let angle : ℝ := 2 * Real.pi * (i : ℝ) / (n : ℝ)
      let x := parent.x + radius * Real.sin angle
      let z := parent.z + radius * Real.cos angle
      let y := parent.y - 60 - (level : ℝ) * 20
      let m1 := dictModify m child_id fun c => c.set_position x y z
      match layout_level cs fuel child_id (level + 1) m1 with
      | none => none
      | some m2 => layout_children cs fuel node_id level n (i + 1) rest m2
    | _, _ => none
  termination_by fuel _ _ _ _ todo _ => (fuel, todo.length + 1)
end

/-- The root search of `_layout_tree`: the first node in dictionary
(insertion) order whose parent id is `None`. -/
def findRootId (m : NodesMap) : Option String :=
  (m.find? fun p => decide (p.2.parent_id = none)).map Prod.fst

/-- `TreeView3D._layout_tree` with explicit fuel: find the root (a falsy
— absent or empty — root id aborts without changes), place it at the
world origin, and lay out the levels recursively from it. -/
noncomputable def layout_tree (fuel : ℕ) (s : ViewState) : Option ViewState :=
  match findRootId s.nodes with
  | none => some s
  | some root_id =>
    if root_id = "" then some s
    else
      let m := dictModify s.nodes root_id fun nd => nd.set_position 0 0 0
      match layout_level s.connections fuel root_id 0 m with
      | none => none
      | some m2 => some { s with nodes := m2 }

/-- One connection step: `(a, b)` is a connection of the scene. -/
def Edge (cs : List (String × String)) (a b : String) : Prop := (a, b) ∈ cs

/-- Proper descendant along connections: at least one `Edge` step. -/
def Desc (cs : List (String × String)) : String → String → Prop :=
  Relation.TransGen (Edge cs)

/-- The node/level pairs visited by the recursive layout descent started
at `(start, slvl)`: the start itself, and the children of every visited
node one level deeper. -/
inductive ReachedFrom (cs : List (String × String)) (start : String)
    (slvl : ℕ) : String → ℕ → Prop
  | base : ReachedFrom cs start slvl start slvl
  | step {pid L cid} : ReachedFrom cs start slvl pid L →
      cid ∈ childrenOf cs pid → ReachedFrom cs start slvl cid (L + 1)

/-- The placement the amended layout claim asserts: in map `m'`, child
`cid` — the `i`-th of the children of `pid`, reached at level `L` — sits
on the circle of radius `120 / (L + 1)` around `pid`'s position at angle
`2π i / n`, one level step `60 + 20 L` below it. -/
def PlacedChild (cs : List (String × String)) (m' : NodesMap)
    (pid : String) (L : ℕ) (i : ℕ) (cid : String) : Prop :=
  ∃ pn cn, dictLookup m' pid = some pn ∧ dictLookup m' cid = some cn ∧
    cn.x = pn.x + 120 / ((L : ℝ) + 1) *
      Real.sin (2 * Real.pi * (i : ℝ) /
        ((childrenOf cs pid).length : ℝ)) ∧
    cn.y = pn.y - 60 - (L : ℝ) * 20 ∧
    cn.z = pn.z + 120 / ((L : ℝ) + 1) *
      Real.cos (2 * Real.pi * (i : ℝ) /
        ((childrenOf cs pid).length : ℝ))

/-- Python `set.add` on the highlighted set: insert when absent. -/
def setAdd (hs : List String) (x : String) : List String :=
  if x ∈ hs then hs else hs ++ [x]

mutual
/-- `TreeView3D._add_children_recursive` with explicit fuel: scan the
whole connection list and, for every connection leaving `node_id`, add
the destination to the highlighted set and recurse into it.  There is no
visited check; `none` models fuel exhaustion (unbounded recursion). -/
def add_children_recursive (cs : List (String × String)) :
    ℕ → String → List String → Option (List String)
  | 0, _, _ => none
  | fuel + 1, node_id, hs => add_children_loop cs fuel node_id cs hs
  termination_by fuel _ _ => (fuel, 0)

/-- The connection scan of `_add_children_recursive`. -/
def add_children_loop (cs : List (String × String)) :
    ℕ → String → List (String × String) → List String → Option (List String)
  | _, _, [], hs => some hs
  | fuel, node_id, (src, dest) :: rest, hs =>
    if src = node_id then
      match add_children_recursive cs fuel dest (setAdd hs dest) with
      | none => none
      | some hs2 => add_children_loop cs fuel node_id rest hs2
    else add_children_loop cs fuel node_id rest hs
  termination_by fuel _ todo _ => (fuel, todo.length + 1)
end

/-- The category titles of `create_demo_tree`. -/
def demoCategories : List String := ["Documents", "Projects", "Settings"]

/-- The document titles of `create_demo_tree`. -/
def demoDocs : List String := ["Document 1", "Document 2", "Document 3"]

/-- The project titles of `create_demo_tree`. -/
def demoProjects : List String := ["Project 1", "Project 2"]

/-- The per-project item titles of `create_demo_tree`
(`[f"Item {j+1}" for j in range(3)]`). -/
def demoItems : List String := ["Item 1", "Item 2", "Item 3"]

/-- The setting titles of `create_demo_tree`. -/
def demoSettings : List String := ["User Settings", "System Settings"]

/-- `TreeView3D.create_demo_tree`: wholesale rebuild of the node and
connection sets into the fixed demo hierarchy — root, three categories on
a circle of radius 120, documents under the first category, projects
(each with three items) under the second, settings under the third.
Only the node/connection sets are replaced; selection and hover are left
untouched.  `rng` supplies the values each `TreeNode3D.__init__` draws,
keyed by node id. -/
noncomputable def create_demo_tree (rng : String → RandInit) (s : ViewState) :
    ViewState :=
  let root := { (TreeNode3D.init (rng "root") "Root" "root" none).set_position
      0 0 0 with size := 25 }
  let acc0 : NodesMap × List (String × String) :=
    (dictInsert [] "root" root, [])
  let acc1 := demoCategories.enum.foldl (fun acc ic =>
    let i : ℕ := ic.1
    let angle : ℝ := 2 * Real.pi * (i : ℝ) / (demoCategories.length : ℝ)
    let node_id := "cat_" ++ toString i
    let node := { (TreeNode3D.init (rng node_id) ic.2 node_id
        (some "root")).set_position (120 * Real.sin angle) (-70)
        (120 * Real.cos angle) with size := 20 }
    (dictInsert acc.1 node_id node, acc.2 ++ [("root", node_id)])) acc0
  let acc2 := demoDocs.enum.foldl (fun acc ic =>
    let i : ℕ := ic.1
    let angle : ℝ := 2 * Real.pi * (i : ℝ) / (demoDocs.length : ℝ)
    let node_id := "doc_" ++ toString i
    let cat0 := (dictLookup acc.1 "cat_0").getD default
    let node := { (TreeNode3D.init (rng node_id) ic.2 node_id
        (some "cat_0")).set_position (cat0.x + 80 * Real.sin angle)
        (cat0.y - 60) (cat0.z + 80 * Real.cos angle) with size := 15 }
    (dictInsert acc.1 node_id node, acc.2 ++ [("cat_0", node_id)])) acc1
  let acc3 := demoProjects.enum.foldl (fun acc ic =>
    let i : ℕ := ic.1
    let angle : ℝ := 2 * Real.pi * (i : ℝ) / (demoProjects.length : ℝ)
    let node_id := "proj_" ++ toString i
    let cat1 := (dictLookup acc.1 "cat_1").getD default
    let node := { (TreeNode3D.init (rng node_id) ic.2 node_id
        (some "cat_1")).set_position (cat1.x + 80 * Real.sin angle)
        (cat1.y - 60) (cat1.z + 80 * Real.cos angle) with size := 15 }
    let accA := (dictInsert acc.1 node_id node, acc.2 ++ [("cat_1", node_id)])
    demoItems.enum.foldl (fun accB jc =>
      let j : ℕ := jc.1
      let item_angle : ℝ := 2 * Real.pi * (j : ℝ) / (demoItems.length : ℝ)
      let item_id := "item_" ++ toString i ++ "_" ++ toString j
      let item_node := { (TreeNode3D.init (rng item_id) jc.2 item_id
          (some node_id)).set_position (node.x + 50 * Real.sin item_angle)
          (node.y - 40) (node.z + 50 * Real.cos item_angle) with size := 10 }
      (dictInsert accB.1 item_id item_node, accB.2 ++ [(node_id, item_id)]))
      accA) acc2
  let acc4 := demoSettings.enum.foldl (fun acc ic =>
    let i : ℕ := ic.1
    let angle : ℝ := 2 * Real.pi * (i : ℝ) / (demoSettings.length : ℝ)
    let node_id := "set_" ++ toString i
    let cat2 := (dictLookup acc.1 "cat_2").getD default
    let node := { (TreeNode3D.init (rng node_id) ic.2 node_id
        (some "cat_2")).set_position (cat2.x + 80 * Real.sin angle)
        (cat2.y - 60) (cat2.z + 80 * Real.cos angle) with size := 15 }
    (dictInsert acc.1 node_id node, acc.2 ++ [("cat_2", node_id)])) acc3
  { s with nodes := acc4.1, connections := acc4.2 }

/-- A nested Python dict `{title: children}` as fed to
`create_tree_from_data`; every value is itself a dict. -/
inductive TreeData where
  | node : List (String × TreeData) → TreeData

/-- Python truthiness of the `parent_id` argument (`if parent_id:`). -/
def parentTruthy : Option String → Bool
  | none => false
  | some p => decide (p ≠ "")

mutual
/-- `TreeView3D.create_tree_from_data`: one node per dictionary entry
with id `data_{level}_{i}`, size `max 8 (25 - 3*level)`, initial position
`(i*50, -100*level, 0)`, a connection from a truthy parent, and a
recursive pass over the entry's value dict at `level + 1`. -/
noncomputable def create_tree_from_data (rng : String → RandInit) :
    TreeData → Option String → ℕ →
      NodesMap × List (String × String) → NodesMap × List (String × String)
  | .node entries, parent_id, level, acc =>
    if entries.isEmpty then acc
    else createEntries rng entries 0 parent_id level acc
  termination_by t _ _ _ => sizeOf t

/-- The `enumerate(data.items())` loop of `create_tree_from_data`. -/
noncomputable def createEntries (rng : String → RandInit) :
    List (String × TreeData) → ℕ → Option String → ℕ →
      NodesMap × List (String × String) → NodesMap × List (String × String)
  | [], _, _, _, acc => acc
  | (key, value) :: rest, i, parent_id, level, acc =>
    let node_id := "data_" ++ toString level ++ "_" ++ toString i
    let node := { (TreeNode3D.init (rng node_id) key node_id
        parent_id).set_position ((i : ℝ) * 50) ((level : ℝ) * (-100)) 0 with
        size := max (8 : ℝ) (25 - (level : ℝ) * 3) }
    let m1 := dictInsert acc.1 node_id node
    let cs1 := if parentTruthy parent_id then
        acc.2 ++ [(parent_id.getD "", node_id)]
      else acc.2
    let acc1 := create_tree_from_data rng value (some node_id) (level + 1)
      (m1, cs1)
    createEntries rng rest (i + 1) parent_id level acc1
  termination_by l _ _ _ _ => sizeOf l
end

/-- A fixed random source for the loader witnesses. -/
def wRng : String → RandInit := fun _ => ⟨0, 0, 0, ⟨0, 0, 0⟩, 1, 1, 1⟩

/-- A stale state whose selection references node id `node_5`. -/
def wStateStale : ViewState :=
  { wStatePress with
    selected_node := some "node_5", hovered_node := some "node_5",
    nodes := [("node_5", wNodeP)] }

/-- The root node used by the `create_tree_from_data` evaluation. -/
noncomputable def wRoot : TreeNode3D :=
  TreeNode3D.init (wRng "root") "Root" "root" none

/-- The dictionary `{"A": {"x": {}}, "B": {"y": {}}}`. -/
def wDataAB : TreeData :=
  .node [("A", .node [("x", .node [])]), ("B", .node [("y", .node [])])]

/-- The root of the chain scene root → a → b for the layout theorems. -/
def wLayNodeR : TreeNode3D := TreeNode3D.init (wRng "root") "R" "root" none

/-- The middle node of the chain scene. -/
def wLayNodeA : TreeNode3D :=
  TreeNode3D.init (wRng "a") "A" "a" (some "root")

/-- The leaf of the chain scene. -/
def wLayNodeB : TreeNode3D := TreeNode3D.init (wRng "b") "B" "b" (some "a")

/-- The chain scene: root → a → b with matching connections. -/
def wStateLay : ViewState :=
  { wStatePress with
    nodes := [("root", wLayNodeR), ("a", wLayNodeA), ("b", wLayNodeB)],
    connections := [("root", "a"), ("a", "b")], selected_node := none }

/-- The chain scene after the layout pass: the root at the origin, `a` at
`(0, -60, 120)` (level step 60), `b` at `(0, -140, 180)` (level step
80). -/
noncomputable def wSLay' : ViewState :=
  { wStateLay with
    nodes := [("root", wLayNodeR.set_position 0 0 0),
              ("a", wLayNodeA.set_position 0 (-60) 120),
              ("b", wLayNodeB.set_position 0 (-140) 180)] }

/-- A rank function witnessing the acyclicity of the chain scene. -/
def wRk : String → ℕ := fun t =>
  if t = "root" then 0 else if t = "a" then 1 else 2

/-- A first node at depth 0, tied with `wNodeT2`. -/
def wNodeT1 : TreeNode3D :=
  TreeNode3D.init ⟨0, 0, 0, ⟨0, 0, 0⟩, 1, 1, 1⟩ "T1" "a" none

/-- A second node at depth 0, tied with `wNodeT1`. -/
def wNodeT2 : TreeNode3D :=
  TreeNode3D.init ⟨0, 0, 0, ⟨0, 0, 0⟩, 1, 1, 1⟩ "T2" "b" none

/-- A concrete scene with two nodes at exactly the same depth. -/
def wStateTie : ViewState :=
  { wStatePress with
    nodes := [("a", wNodeT1), ("b", wNodeT2)], selected_node := none }

end ThreeDView

namespace ThreeDView

/-- C1: for every world point and camera state, `project_point` returns
the screen point obtained by rotating about X, then Y, then Z (each
rotation applied to the already-rotated coordinates, in that order), and
then, with `z'` the depth after the X and Y rotations, returning the
viewport center when `z' + camera_distance ≤ 0` and otherwise the fully
rotated coordinates scaled by `1000 / (z' + camera_distance) * scale` and
translated by the center.  Purity is by construction: `project_point` is
a function of the state and the point only. -/
theorem project_point_eq_spec (s : ViewState) (x y z : ℝ) :
    project_point s x y z = project_point_spec s x y z := by
  rfl

theorem dictLookup_dictModify_self (m : NodesMap) (k : String)
    (f : TreeNode3D → TreeNode3D) :
    dictLookup (dictModify m k f) k = (dictLookup m k).map f := by
  induction m with
  | nil => rfl
  | cons p rest ih =>
    obtain ⟨k', v⟩ := p
    by_cases h : k' = k
    · subst h
      simp [dictModify, dictLookup]
    · simp [dictModify, dictLookup, h, ih]

theorem dictLookup_dictModify_ne (m : NodesMap) (k k' : String)
    (f : TreeNode3D → TreeNode3D) (h : k' ≠ k) :
    dictLookup (dictModify m k f) k' = dictLookup m k' := by
  induction m with
  | nil => rfl
  | cons p rest ih =>
    obtain ⟨k0, v⟩ := p
    by_cases h0 : k0 = k
    · subst h0
      have hne : k0 ≠ k' := fun hh => h hh.symm
      simp [dictModify, dictLookup, hne, ih]
    · simp [dictModify, dictLookup, h0, ih]

theorem dictLookup_map_value (m : NodesMap) (k : String)
    (f : TreeNode3D → TreeNode3D) :
    dictLookup (m.map fun p => (p.1, f p.2)) k = (dictLookup m k).map f := by
  induction m with
  | nil => rfl
  | cons p rest ih =>
    obtain ⟨k', v⟩ := p
    by_cases h : k' = k
    · subst h
      simp [dictLookup]
    · simpa [dictLookup, h] using ih

theorem mouseMoveEvent_drag_eq (s : ViewState) (pos : ℤ × ℤ) (sid : String)
    (n : TreeNode3D) (hdown : s.mouse_down = true)
    (hsel : s.selected_node = some sid)
    (hlook : dictLookup s.nodes sid = some n) (hdrag : n.dragging = true) :
    mouseMoveEvent s pos =
      { s with
        current_mouse_pos := pos,
        nodes := dictModify s.nodes sid fun m =>
          m.update_position_by_offset
            (drag_world_dx s n (pos.1 - s.last_mouse_pos.1)
              (pos.2 - s.last_mouse_pos.2)) 0
            (drag_world_dz s n (pos.1 - s.last_mouse_pos.1)
              (pos.2 - s.last_mouse_pos.2)),
        last_mouse_pos := pos } := by
  unfold mouseMoveEvent
  simp [hdown, hsel, hlook, hdrag]

theorem mouseMove_inDrag_step (s : ViewState) (sid : String) (n : TreeNode3D)
    (h : InDrag s sid n) (p : ℤ × ℤ) :
    InDrag (mouseMoveEvent s p) sid
      (n.update_position_by_offset
        (drag_world_dx s n (p.1 - s.last_mouse_pos.1)
          (p.2 - s.last_mouse_pos.2)) 0
        (drag_world_dz s n (p.1 - s.last_mouse_pos.1)
          (p.2 - s.last_mouse_pos.2))) := by
  obtain ⟨h1, h2, h3, h4⟩ := h
  rw [mouseMoveEvent_drag_eq s p sid n h1 h2 h3 h4]
  refine ⟨h1, h2, ?_, h4⟩
  simp [dictLookup_dictModify_self, h3]

theorem foldl_mouseMove_inDrag (s : ViewState) (sid : String) (n : TreeNode3D)
    (h : InDrag s sid n) (ps : List (ℤ × ℤ)) :
    ∃ n1, InDrag (ps.foldl mouseMoveEvent s) sid n1 ∧
      n1.orig_x = n.orig_x ∧ n1.orig_y = n.orig_y ∧ n1.orig_z = n.orig_z := by
  induction ps generalizing s n with
  | nil => exact ⟨n, h, rfl, rfl, rfl⟩
  | cons p ps ih =>
    obtain ⟨n1, h1, e1, e2, e3⟩ := ih (mouseMoveEvent s p) _
      (mouseMove_inDrag_step s sid n h p)
    exact ⟨n1, h1, e1, e2, e3⟩

/-- C3: on every pointer move while a node is dragging, the applied world
offset is `(world_dx, 0, world_dz)` with
`world_dx = (dx*cos(-ry) - dy*sin(-ry)) * s`,
`world_dz = (dx*sin(-ry) + dy*cos(-ry)) * s`,
`s = 2 / (z_factor * scale)` and `z_factor = 800/(z + camera_distance + 800)`,
added to the drag anchor rather than the live position; with `ry = 0` a
delta `(dx, 0)` gives `world_dz = 0`, and the node's `y` is the anchor `y`
for every delta and rotation. -/
theorem mouseMove_drag_offset (s : ViewState) (pos : ℤ × ℤ) (sid : String)
    (n : TreeNode3D) (hdown : s.mouse_down = true)
    (hsel : s.selected_node = some sid)
    (hlook : dictLookup s.nodes sid = some n) (hdrag : n.dragging = true) :
    dictLookup (mouseMoveEvent s pos).nodes sid =
        some { n with
          x := n.orig_x + drag_world_dx s n (pos.1 - s.last_mouse_pos.1)
                 (pos.2 - s.last_mouse_pos.2),
          y := n.orig_y,
          z := n.orig_z + drag_world_dz s n (pos.1 - s.last_mouse_pos.1)
                 (pos.2 - s.last_mouse_pos.2) } ∧
      (∀ dx : ℤ, s.rotation_y = 0 → drag_world_dz s n dx 0 = 0) ∧
      ((dictLookup (mouseMoveEvent s pos).nodes sid).map TreeNode3D.y) =
        some n.orig_y := by
  have hmain : dictLookup (mouseMoveEvent s pos).nodes sid =
      some { n with
        x := n.orig_x + drag_world_dx s n (pos.1 - s.last_mouse_pos.1)
               (pos.2 - s.last_mouse_pos.2),
        y := n.orig_y,
        z := n.orig_z + drag_world_dz s n (pos.1 - s.last_mouse_pos.1)
               (pos.2 - s.last_mouse_pos.2) } := by
    rw [mouseMoveEvent_drag_eq s pos sid n hdown hsel hlook hdrag]
    simp [dictLookup_dictModify_self, hlook, TreeNode3D.update_position_by_offset]
  refine ⟨hmain, ?_, ?_⟩
  · intro dx hry
    simp [drag_world_dz, hry]
  · rw [hmain]
    rfl

/-- Witness for C3 at a concrete dragging state and pointer move. -/
theorem mouseMove_drag_offset_witness :
    dictLookup (mouseMoveEvent wStateDrag (15, 10)).nodes "a" =
        some { wNodeA with
          x := wNodeA.orig_x + drag_world_dx wStateDrag wNodeA 5 0,
          y := wNodeA.orig_y,
          z := wNodeA.orig_z + drag_world_dz wStateDrag wNodeA 5 0 } ∧
      drag_world_dz wStateDrag wNodeA 5 0 = 0 := by
  have h := mouseMove_drag_offset wStateDrag (15, 10) "a" wNodeA rfl rfl rfl rfl
  exact ⟨h.1, h.2.1 5 rfl⟩

/-- C4: during one drag, each move event rebases the node on the drag
anchor: after the moves `ps ++ [p]`, the position is the anchor plus the
world offset computed from the last event's delta alone (at the state the
earlier moves produced); the anchor itself never changes, so the earlier
events' offsets are discarded rather than summed. -/
theorem mouseMove_drag_last_offset (s : ViewState) (sid : String)
    (n n1 : TreeNode3D) (ps : List (ℤ × ℤ)) (p : ℤ × ℤ) (h : InDrag s sid n)
    (hmid : dictLookup (ps.foldl mouseMoveEvent s).nodes sid = some n1) :
    n1.orig_x = n.orig_x ∧ n1.orig_y = n.orig_y ∧ n1.orig_z = n.orig_z ∧
      dictLookup ((ps ++ [p]).foldl mouseMoveEvent s).nodes sid =
        some { n1 with
          x := n.orig_x + drag_world_dx (ps.foldl mouseMoveEvent s) n1
                 (p.1 - (ps.foldl mouseMoveEvent s).last_mouse_pos.1)
                 (p.2 - (ps.foldl mouseMoveEvent s).last_mouse_pos.2),
          y := n.orig_y,
          z := n.orig_z + drag_world_dz (ps.foldl mouseMoveEvent s) n1
                 (p.1 - (ps.foldl mouseMoveEvent s).last_mouse_pos.1)
                 (p.2 - (ps.foldl mouseMoveEvent s).last_mouse_pos.2) } := by
  obtain ⟨n1', h1, e1, e2, e3⟩ := foldl_mouseMove_inDrag s sid n h ps
  have hn : n1 = n1' := Option.some.inj (hmid.symm.trans h1.2.2.1)
  subst hn
  obtain ⟨hd1, hd2, hd3, hd4⟩ := h1
  have hstep := mouseMove_drag_offset (ps.foldl mouseMoveEvent s) p sid n1
    hd1 hd2 hd3 hd4
  refine ⟨e1, e2, e3, ?_⟩
  rw [List.foldl_append, List.foldl_cons, List.foldl_nil]
  rw [hstep.1, e1, e2, e3]

/-- Witness for C4: two consecutive moves from a concrete drag state. -/
theorem mouseMove_drag_last_offset_witness :
    (wNodeA.update_position_by_offset (drag_world_dx wStateDrag wNodeA 2 0) 0
        (drag_world_dz wStateDrag wNodeA 2 0)).orig_x = wNodeA.orig_x ∧
      (wNodeA.update_position_by_offset (drag_world_dx wStateDrag wNodeA 2 0) 0
        (drag_world_dz wStateDrag wNodeA 2 0)).orig_y = wNodeA.orig_y ∧
      (wNodeA.update_position_by_offset (drag_world_dx wStateDrag wNodeA 2 0) 0
        (drag_world_dz wStateDrag wNodeA 2 0)).orig_z = wNodeA.orig_z ∧
      dictLookup (([((12 : ℤ), (10 : ℤ))] ++
            [((15 : ℤ), (11 : ℤ))]).foldl mouseMoveEvent wStateDrag).nodes "a" =
        some { wNodeA.update_position_by_offset
                (drag_world_dx wStateDrag wNodeA 2 0) 0
                (drag_world_dz wStateDrag wNodeA 2 0) with
          x := wNodeA.orig_x +
            drag_world_dx ([((12 : ℤ), (10 : ℤ))].foldl mouseMoveEvent wStateDrag)
              (wNodeA.update_position_by_offset
                (drag_world_dx wStateDrag wNodeA 2 0) 0
                (drag_world_dz wStateDrag wNodeA 2 0))
              (15 - ([((12 : ℤ), (10 : ℤ))].foldl mouseMoveEvent
                wStateDrag).last_mouse_pos.1)
              (11 - ([((12 : ℤ), (10 : ℤ))].foldl mouseMoveEvent
                wStateDrag).last_mouse_pos.2),
          y := wNodeA.orig_y,
          z := wNodeA.orig_z +
            drag_world_dz ([((12 : ℤ), (10 : ℤ))].foldl mouseMoveEvent wStateDrag)
              (wNodeA.update_position_by_offset
                (drag_world_dx wStateDrag wNodeA 2 0) 0
                (drag_world_dz wStateDrag wNodeA 2 0))
              (15 - ([((12 : ℤ), (10 : ℤ))].foldl mouseMoveEvent
                wStateDrag).last_mouse_pos.1)
              (11 - ([((12 : ℤ), (10 : ℤ))].foldl mouseMoveEvent
                wStateDrag).last_mouse_pos.2) } := by
  have hmid : dictLookup
      ([((12 : ℤ), (10 : ℤ))].foldl mouseMoveEvent wStateDrag).nodes "a" =
      some (wNodeA.update_position_by_offset
        (drag_world_dx wStateDrag wNodeA 2 0) 0
        (drag_world_dz wStateDrag wNodeA 2 0)) := by
    rw [List.foldl_cons, List.foldl_nil,
      mouseMoveEvent_drag_eq wStateDrag (12, 10) "a" wNodeA rfl rfl rfl rfl]
    rw [dictLookup_dictModify_self]
    rfl
  exact mouseMove_drag_last_offset wStateDrag "a" wNodeA _
    [((12 : ℤ), (10 : ℤ))] ((15 : ℤ), (11 : ℤ)) ⟨rfl, rfl, rfl, rfl⟩ hmid

/-- C10: a pointer release clears the dragging flag on every node and
changes nothing else of the scene state: selection, hover, camera
(rotations, scale, camera distance), connections, and every node's
position, drag anchor, dimensions and color are unchanged; when no node
is dragging the node set is untouched entirely. -/
theorem mouseRelease_spec (s : ViewState) :
    (mouseReleaseEvent s).selected_node = s.selected_node ∧
      (mouseReleaseEvent s).hovered_node = s.hovered_node ∧
      (mouseReleaseEvent s).rotation_x = s.rotation_x ∧
      (mouseReleaseEvent s).rotation_y = s.rotation_y ∧
      (mouseReleaseEvent s).rotation_z = s.rotation_z ∧
      (mouseReleaseEvent s).scale = s.scale ∧
      (mouseReleaseEvent s).camera_distance = s.camera_distance ∧
      (mouseReleaseEvent s).connections = s.connections ∧
      (∀ k n, dictLookup s.nodes k = some n →
        dictLookup (mouseReleaseEvent s).nodes k =
          some { n with dragging := false }) ∧
      ((∀ p ∈ s.nodes, p.2.dragging = false) →
        (mouseReleaseEvent s).nodes = s.nodes) := by
  refine ⟨rfl, rfl, rfl, rfl, rfl, rfl, rfl, rfl, ?_, ?_⟩
  · intro k n hk
    have h0 : (mouseReleaseEvent s).nodes =
        s.nodes.map fun p => (p.1, clearDragging p.2) := rfl
    have hcd : clearDragging n = { n with dragging := false } := by
      unfold clearDragging
      split_ifs with hd
      · rfl
      · cases n
        simp_all
    rw [h0, dictLookup_map_value, hk]
    simp [hcd]
  · intro hall
    have h0 : (mouseReleaseEvent s).nodes =
        s.nodes.map fun p => (p.1, clearDragging p.2) := rfl
    rw [h0]
    have h2 : ∀ l : NodesMap, (∀ p ∈ l, p.2.dragging = false) →
        l.map (fun p => (p.1, clearDragging p.2)) = l := by
      intro l
      induction l with
      | nil => intro _; rfl
      | cons p rest ih =>
        intro hl
        have hp : clearDragging p.2 = p.2 := by
          unfold clearDragging
          rw [hl p (List.mem_cons_self _ _)]
          simp
        rw [List.map_cons, hp, Prod.mk.eta,
          ih fun q hq => hl q (List.mem_cons_of_mem _ hq)]
    exact h2 s.nodes hall

/-- C2 (amended): a pointer press hit-tests front to back; when the hit
node differs from the current selection (and has a non-empty id present
in the node map) it becomes the selection with its position captured as
the drag anchor and its dragging flag set; when the hit result equals the
current selection — in particular a press on the already-selected node —
the press leaves the selection and every node untouched; when no node
contains the point the selection is cleared. -/
theorem mousePress_spec (s : ViewState) (pos : ℤ × ℤ) :
    (∀ sid n, find_node_at_position s pos.1 pos.2 = some sid →
        some sid ≠ s.selected_node → sid ≠ "" →
        dictLookup s.nodes sid = some n →
        (mousePressEvent s pos).selected_node = some sid ∧
          dictLookup (mousePressEvent s pos).nodes sid =
            some { n with
                   dragging := true, orig_x := n.x, orig_y := n.y,
                   orig_z := n.z }) ∧
      (find_node_at_position s pos.1 pos.2 = s.selected_node →
        (mousePressEvent s pos).selected_node = s.selected_node ∧
          (mousePressEvent s pos).nodes = s.nodes) ∧
      (find_node_at_position s pos.1 pos.2 = none → s.selected_node ≠ none →
        (mousePressEvent s pos).selected_node = none) := by
  refine ⟨?_, ?_, ?_⟩
  · intro sid n hhit hne hnem hlk
    have htruthy : selectedTruthy s.nodes (some sid) :=
      ⟨hnem, by rw [hlk]; rfl⟩
    constructor
    · unfold mousePressEvent
      rw [hhit]
      rw [if_pos hne]
      rw [if_pos htruthy]
    · unfold mousePressEvent
      rw [hhit]
      rw [if_pos hne]
      rw [if_pos htruthy]
      show dictLookup (dictModify s.nodes sid _) sid = _
      rw [dictLookup_dictModify_self, hlk]
      rfl
  · intro heq
    unfold mousePressEvent
    rw [heq]
    rw [if_neg (by simp)]
    exact ⟨rfl, rfl⟩
  · intro hnone hsel
    unfold mousePressEvent
    rw [hnone]
    rw [if_pos (by simpa using fun hh => hsel hh.symm)]
    rw [if_neg (by simp [selectedTruthy])]

/-- The concrete press point `(100, 100)` lies inside `wNodeP`'s
projected rectangle. -/
theorem wNodeP_hit : hitTest wStatePress 100 100 wNodeP := by
  unfold hitTest wStatePress wNodeP TreeNode3D.init
  norm_num [intTrunc]

/-- Witness for C2: pressing inside the rectangle of the not-yet-selected
node `a` selects and arms it; pressing the already-selected node changes
nothing; pressing far outside every rectangle clears the selection. -/
theorem mousePress_spec_witness :
    ((mousePressEvent wStatePressFresh (100, 100)).selected_node = some "a" ∧
        dictLookup (mousePressEvent wStatePressFresh (100, 100)).nodes "a" =
          some { wNodeP with
                 dragging := true, orig_x := wNodeP.x, orig_y := wNodeP.y,
                 orig_z := wNodeP.z }) ∧
      ((mousePressEvent wStatePress (100, 100)).selected_node = some "a" ∧
        (mousePressEvent wStatePress (100, 100)).nodes = wStatePress.nodes) ∧
      (mousePressEvent wStatePress (1000, 1000)).selected_node = none := by
  have hhit : find_node_at_position wStatePress 100 100 = some "a" := by
    unfold find_node_at_position hitOrder
    show findNodeInList _ _ _ (sortAscBy _ [wNodeP]) = _
    unfold sortAscBy insertAscBy sortAscBy findNodeInList
    rw [if_pos wNodeP_hit]
    rfl
  have hhitF : find_node_at_position wStatePressFresh 100 100 = some "a" := by
    have hh : hitTest wStatePressFresh 100 100 wNodeP := wNodeP_hit
    unfold find_node_at_position hitOrder
    show findNodeInList _ _ _ (sortAscBy _ [wNodeP]) = _
    unfold sortAscBy insertAscBy sortAscBy findNodeInList
    rw [if_pos hh]
    rfl
  have hmiss : find_node_at_position wStatePress 1000 1000 = none := by
    unfold find_node_at_position hitOrder
    show findNodeInList _ _ _ (sortAscBy _ [wNodeP]) = _
    unfold sortAscBy insertAscBy sortAscBy findNodeInList
    have hnot : ¬ hitTest wStatePress 1000 1000 wNodeP := by
      unfold hitTest wStatePress wNodeP TreeNode3D.init
      norm_num [intTrunc]
    rw [if_neg hnot]
    rfl
  refine ⟨?_, ?_, ?_⟩
  · exact (mousePress_spec wStatePressFresh (100, 100)).1 "a" wNodeP hhitF
      (by simp [wStatePressFresh, wStatePress]) (by simp) rfl
  · have h := (mousePress_spec wStatePress (100, 100)).2.1
      (by rw [hhit]; rfl)
    exact ⟨h.1, h.2⟩
  · exact (mousePress_spec wStatePress (1000, 1000)).2.2 hmiss
      (by simp [wStatePress])

/-- Counterexample for C2 as stated: in `wStatePress` the hit-test at
`(100, 100)` finds node `a`, which is already the selected node; after
the press its dragging flag is still `false` and its drag anchor was not
recaptured, contradicting the claim that this holds for every press
including one on the already-selected node. -/
theorem mousePress_same_node_counterexample :
    find_node_at_position wStatePress 100 100 = some "a" ∧
      (dictLookup (mousePressEvent wStatePress (100, 100)).nodes "a").map
          TreeNode3D.dragging = some false := by
  have hhit : find_node_at_position wStatePress 100 100 = some "a" := by
    unfold find_node_at_position hitOrder
    show findNodeInList _ _ _ (sortAscBy _ [wNodeP]) = _
    unfold sortAscBy insertAscBy sortAscBy findNodeInList
    rw [if_pos wNodeP_hit]
    rfl
  constructor
  · exact hhit
  · unfold mousePressEvent
    rw [hhit]
    rw [if_neg (by simp [wStatePress])]
    rfl

theorem perm_insertAscBy {α : Type} (key : α → ℝ) (a : α) (l : List α) :
    List.Perm (insertAscBy key a l) (a :: l) := by
  induction l with
  | nil => exact List.Perm.refl _
  | cons b t ih =>
    unfold insertAscBy
    split_ifs with h
    · exact List.Perm.refl _
    · exact (ih.cons b).trans (List.Perm.swap a b t)

theorem perm_sortAscBy {α : Type} (key : α → ℝ) (l : List α) :
    List.Perm (sortAscBy key l) l := by
  induction l with
  | nil => exact List.Perm.refl _
  | cons a t ih =>
    exact (perm_insertAscBy key a _).trans (ih.cons a)

theorem perm_insertDescBy {α : Type} (key : α → ℝ) (a : α) (l : List α) :
    List.Perm (insertDescBy key a l) (a :: l) := by
  induction l with
  | nil => exact List.Perm.refl _
  | cons b t ih =>
    unfold insertDescBy
    split_ifs with h
    · exact List.Perm.refl _
    · exact (ih.cons b).trans (List.Perm.swap a b t)

theorem perm_sortDescBy {α : Type} (key : α → ℝ) (l : List α) :
    List.Perm (sortDescBy key l) l := by
  induction l with
  | nil => exact List.Perm.refl _
  | cons a t ih =>
    exact (perm_insertDescBy key a _).trans (ih.cons a)

theorem sorted_insertAscBy {α : Type} (key : α → ℝ) (a : α) (l : List α)
    (h : List.Sorted (fun x y => key x ≤ key y) l) :
    List.Sorted (fun x y => key x ≤ key y) (insertAscBy key a l) := by
  induction l with
  | nil => simp [insertAscBy]
  | cons b t ih =>
    rcases List.sorted_cons.mp h with ⟨hb, ht⟩
    unfold insertAscBy
    split_ifs with hab
    · refine List.sorted_cons.mpr ⟨?_, h⟩
      intro c hc
      rcases List.mem_cons.mp hc with rfl | hct
      · exact hab
      · exact le_trans hab (hb c hct)
    · refine List.sorted_cons.mpr ⟨?_, ih ht⟩
      intro c hc
      have hc' := (perm_insertAscBy key a t).mem_iff.mp hc
      rcases List.mem_cons.mp hc' with rfl | hct
      · exact (not_le.mp hab).le
      · exact hb c hct

theorem sorted_sortAscBy {α : Type} (key : α → ℝ) (l : List α) :
    List.Sorted (fun x y => key x ≤ key y) (sortAscBy key l) := by
  induction l with
  | nil => simp [sortAscBy]
  | cons a t ih => exact sorted_insertAscBy key a _ ih

theorem sorted_lt_of_nodup_keys {α : Type} (key : α → ℝ) (l : List α)
    (hs : List.Sorted (fun x y => key x ≤ key y) l)
    (hn : (l.map key).Nodup) :
    List.Sorted (fun x y => key x < key y) l := by
  have hp : List.Pairwise (fun x y => key x ≠ key y) l :=
    List.pairwise_map.mp hn
  exact (List.Pairwise.and hs hp).imp fun h => lt_of_le_of_ne h.1 h.2

/-- C6 (amended): the render order is the stable descending sort and the
hit order the stable ascending sort by `z + camera_distance`; for every
scene the two orders are permutations of the same node list, and when
the depth keys are pairwise distinct, reversing the render order and
re-sorting yields exactly the hit-test order.  With tied keys the stable
tie-breaking makes the reverse-and-resort list differ from the hit order
(see the counterexample). -/
theorem render_hit_order (s : ViewState) :
    (renderOrder s).Perm (hitOrder s) ∧
      (((s.nodes.map Prod.snd).map (depthKey s)).Nodup →
        sortAscBy (depthKey s) (renderOrder s).reverse = hitOrder s) := by
  have hrender : List.Perm (renderOrder s) (s.nodes.map Prod.snd) :=
    perm_sortDescBy (depthKey s) (s.nodes.map Prod.snd)
  have hhit : List.Perm (hitOrder s) (s.nodes.map Prod.snd) :=
    perm_sortAscBy (depthKey s) (s.nodes.map Prod.snd)
  refine ⟨hrender.trans hhit.symm, ?_⟩
  intro h
  have hA : List.Perm (sortAscBy (depthKey s) (renderOrder s).reverse)
      (s.nodes.map Prod.snd) :=
    (perm_sortAscBy (depthKey s) _).trans
      ((List.reverse_perm (renderOrder s)).trans hrender)
  have hsA : List.Sorted (fun x y => depthKey s x < depthKey s y)
      (sortAscBy (depthKey s) (renderOrder s).reverse) := by
    refine sorted_lt_of_nodup_keys _ _ (sorted_sortAscBy _ _) ?_
    exact ((hA.map (depthKey s)).nodup_iff).mpr h
  have hsB : List.Sorted (fun x y => depthKey s x < depthKey s y)
      (hitOrder s) := by
    refine sorted_lt_of_nodup_keys _ _ ?_ ?_
    · exact sorted_sortAscBy (depthKey s) (s.nodes.map Prod.snd)
    · exact ((hhit.map (depthKey s)).nodup_iff).mpr h
  haveI : IsAntisymm TreeNode3D (fun x y => depthKey s x < depthKey s y) :=
    ⟨fun a b h1 h2 => absurd (h1.trans h2) (lt_irrefl _)⟩
  exact List.eq_of_perm_of_sorted (hA.trans hhit.symm) hsA hsB

/-- Witness for C6 at a concrete scene with distinct depth keys: the two
orders are permutations and reverse-then-resort equals the hit order. -/
theorem render_hit_order_witness :
    (renderOrder wStateDrag).Perm (hitOrder wStateDrag) ∧
      sortAscBy (depthKey wStateDrag) (renderOrder wStateDrag).reverse =
        hitOrder wStateDrag := by
  have hnd : ((wStateDrag.nodes.map Prod.snd).map (depthKey wStateDrag)).Nodup := by
    show ([depthKey wStateDrag wNodeA, depthKey wStateDrag wNodeB]).Nodup
    have : depthKey wStateDrag wNodeA ≠ depthKey wStateDrag wNodeB := by
      unfold depthKey wStateDrag wNodeA wNodeB TreeNode3D.init
      norm_num
    simp [this]
  exact ⟨(render_hit_order wStateDrag).1, (render_hit_order wStateDrag).2 hnd⟩

/-- Counterexample for C6 as stated: with two nodes at the same depth the
stable sorts keep insertion order in both directions, so reversing the
render order and re-sorting gives the reversed list, not the hit order. -/
theorem render_hit_order_counterexample :
    ¬ sortAscBy (depthKey wStateTie) (renderOrder wStateTie).reverse =
        hitOrder wStateTie := by
  have hk21 : depthKey wStateTie wNodeT2 ≤ depthKey wStateTie wNodeT1 :=
    le_of_eq rfl
  have hk12 : depthKey wStateTie wNodeT1 ≤ depthKey wStateTie wNodeT2 :=
    le_of_eq rfl
  have hrender : renderOrder wStateTie = [wNodeT1, wNodeT2] := by
    show sortDescBy _ [wNodeT1, wNodeT2] = _
    simp only [sortDescBy, insertDescBy]
    rw [if_pos hk21]
  have hhit : hitOrder wStateTie = [wNodeT1, wNodeT2] := by
    show sortAscBy _ [wNodeT1, wNodeT2] = _
    simp only [sortAscBy, insertAscBy]
    rw [if_pos hk12]
  have hlhs : sortAscBy (depthKey wStateTie) (renderOrder wStateTie).reverse =
      [wNodeT2, wNodeT1] := by
    rw [hrender]
    show sortAscBy _ [wNodeT1, wNodeT2].reverse = _
    simp only [List.reverse_cons, List.reverse_nil, List.nil_append,
      List.cons_append, sortAscBy, insertAscBy]
    rw [if_pos hk21]
  intro hcontra
  rw [hlhs, hhit] at hcontra
  have h1 : wNodeT2 = wNodeT1 := (List.cons.injEq _ _ _ _ ▸ hcontra).1
  have h2 : wNodeT2.node_id = wNodeT1.node_id := congrArg TreeNode3D.node_id h1
  have h3 : wNodeT2.node_id = "b" := rfl
  have h4 : wNodeT1.node_id = "a" := rfl
  rw [h3, h4] at h2
  exact absurd h2 (by decide)

/-- C9 is false of the code: on the self-loop connection set
`[("a", "a")]` the descendant-highlighting walk recurses without bound —
no amount of fuel completes it (in Python, a `RecursionError`).  The
recursion has no visited check, so a cyclic connection set is traversed
infinitely, contradicting the claimed bound of one visit per
connection. -/
theorem add_children_cycle_diverges :
    ∀ fuel hs, add_children_recursive [("a", "a")] fuel "a" hs = none := by
  intro fuel
  induction fuel with
  | zero => intro hs; simp [add_children_recursive]
  | succ f ih =>
    intro hs
    rw [add_children_recursive]
    simp [add_children_loop, ih]

/-- C7 is false of the code: `create_demo_tree` replaces the node and
connection sets but never clears `selected_node` or `hovered_node`; from
a state whose selection and hover reference `node_5`, both still
reference `node_5` after the load even though no node with that id exists
in the rebuilt node set. -/
theorem create_demo_tree_keeps_stale_selection :
    (create_demo_tree wRng wStateStale).selected_node = some "node_5" ∧
      (create_demo_tree wRng wStateStale).hovered_node = some "node_5" ∧
      (dictLookup (create_demo_tree wRng wStateStale).nodes "node_5").isSome =
        false := by
  refine ⟨rfl, rfl, ?_⟩
  rfl

/-- C8 is false of the code: on `{"A": {"x": {}}, "B": {"y": {}}}` the id
scheme `data_{level}_{i}` of `create_tree_from_data` assigns the same id
`data_1_0` to the child `x` of `A` and the child `y` of `B`; the second
insertion overwrites the first, so the created node titled `x` is absent
from the final map (its slot holds `y`) while two connections target
`data_1_0`. -/
theorem create_tree_from_data_id_collision :
    ((create_tree_from_data wRng wDataAB (some "root") 0
          ([("root", wRoot)], [])).1.map fun p => p.2.title) =
        ["Root", "A", "y", "B"] ∧
      (create_tree_from_data wRng wDataAB (some "root") 0
          ([("root", wRoot)], [])).2 =
        [("root", "data_0_0"), ("data_0_0", "data_1_0"),
         ("root", "data_0_1"), ("data_0_1", "data_1_0")] := by
  constructor <;>
    (simp only [create_tree_from_data, createEntries, wDataAB]; decide)

theorem desc_rank {cs : List (String × String)} {rk : String → ℕ}
    (hrk : ∀ a b, (a, b) ∈ cs → rk a < rk b) {a b : String}
    (h : Desc cs a b) : rk a < rk b := by
  induction h with
  | single h1 => exact hrk _ _ h1
  | tail _ h2 ih => exact lt_trans ih (hrk _ _ h2)

theorem no_self_desc {cs : List (String × String)} {rk : String → ℕ}
    (hrk : ∀ a b, (a, b) ∈ cs → rk a < rk b) {a : String}
    (h : Desc cs a a) : False :=
  lt_irrefl _ (desc_rank hrk h)

theorem mem_childrenOf {cs : List (String × String)} {nid c : String} :
    c ∈ childrenOf cs nid ↔ (nid, c) ∈ cs := by
  simp only [childrenOf, List.mem_map, List.mem_filter, decide_eq_true_eq]
  constructor
  · rintro ⟨⟨a, b⟩, ⟨hp, hp1⟩, hp2⟩
    simp only at hp1 hp2
    rw [hp1, hp2] at hp
    exact hp
  · intro h
    exact ⟨(nid, c), ⟨h, rfl⟩, rfl⟩

theorem childrenOf_nodup {cs : List (String × String)}
    (hnd : (cs.map Prod.snd).Nodup) (nid : String) :
    (childrenOf cs nid).Nodup := by
  have hsub : ((cs.filter fun c => decide (c.1 = nid)).map Prod.snd).Sublist
      (cs.map Prod.snd) :=
    (List.filter_sublist cs).map Prod.snd
  exact hnd.sublist hsub

theorem unique_parent {cs : List (String × String)}
    (hnd : (cs.map Prod.snd).Nodup) {a b x : String}
    (ha : (a, x) ∈ cs) (hb : (b, x) ∈ cs) : a = b := by
  have h := List.inj_on_of_nodup_map hnd ha hb rfl
  exact congrArg Prod.fst h

theorem no_sibling_desc {cs : List (String × String)} {rk : String → ℕ}
    (hrk : ∀ a b, (a, b) ∈ cs → rk a < rk b)
    (hnd : (cs.map Prod.snd).Nodup) {nid c c' : String}
    (hc : (nid, c) ∈ cs) (hc' : (nid, c') ∈ cs) (h : Desc cs c' c) :
    False := by
  cases h with
  | single h1 =>
    have he : c' = nid := unique_parent hnd h1 hc
    subst he
    exact lt_irrefl _ (hrk _ _ hc')
  | tail h1 h2 =>
    have he := unique_parent hnd h2 hc
    subst he
    exact lt_irrefl _ (lt_trans (desc_rank hrk h1) (hrk _ _ hc'))

theorem anc_comparable {cs : List (String × String)}
    (hnd : (cs.map Prod.snd).Nodup) {x a b : String}
    (h1 : Desc cs a x) (h2 : Desc cs b x) :
    a = b ∨ Desc cs a b ∨ Desc cs b a := by
  induction h1 with
  | single hax =>
    cases h2 with
    | single hbx => exact Or.inl (unique_parent hnd hax hbx)
    | tail hby hyx =>
      have he := unique_parent hnd hyx hax
      subst he
      exact Or.inr (Or.inr hby)
  | tail hay hyx ih =>
    cases h2 with
    | single hbx =>
      have he := unique_parent hnd hbx hyx
      subst he
      exact Or.inr (Or.inl hay)
    | tail hby' hy'x =>
      have he := unique_parent hnd hy'x hyx
      subst he
      exact ih hby'

theorem layout_children_frame (cs : List (String × String)) (f : ℕ)
    (hL : ∀ nid lvl m m', layout_level cs f nid lvl m = some m' →
      ∀ k, ¬ Desc cs nid k → dictLookup m' k = dictLookup m k) :
    ∀ todo nid lvl n i m m',
      layout_children cs f nid lvl n i todo m = some m' →
      ∀ k, (∀ c ∈ todo, c ≠ k ∧ ¬ Desc cs c k) →
        dictLookup m' k = dictLookup m k := by
  intro todo
  induction todo with
  | nil =>
    intro nid lvl n i m m' h k _
    simp only [layout_children] at h
    obtain rfl := Option.some.inj h
    rfl
  | cons c rest ih =>
    intro nid lvl n i m m' h k hk
    simp only [layout_children] at h
    split at h
    case _ parent other hp hc =>
      split at h
      case _ hrec => exact Option.noConfusion h
      case _ m2 hrec =>
        obtain ⟨hck, hcd⟩ := hk c (List.mem_cons_self _ _)
        have hk' : ∀ c' ∈ rest, c' ≠ k ∧ ¬ Desc cs c' k := fun c' hc' =>
          hk c' (List.mem_cons_of_mem _ hc')
        calc dictLookup m' k
            = dictLookup m2 k := ih _ _ _ _ _ _ h k hk'
          _ = dictLookup (dictModify m c fun nd => nd.set_position _ _ _) k :=
              hL _ _ _ _ hrec k hcd
          _ = dictLookup m k := dictLookup_dictModify_ne _ _ _ _ (Ne.symm hck)
    case _ h1 h2 => exact Option.noConfusion h

theorem layout_level_frame (cs : List (String × String)) :
    ∀ f nid lvl m m', layout_level cs f nid lvl m = some m' →
      ∀ k, ¬ Desc cs nid k → dictLookup m' k = dictLookup m k := by
  intro f
  induction f with
  | zero =>
    intro nid lvl m m' h
    simp [layout_level] at h
  | succ f ih =>
    intro nid lvl m m' h k hk
    simp only [layout_level] at h
    split at h
    case _ hempty =>
      obtain rfl := Option.some.inj h
      rfl
    case _ hne =>
      split at h
      case _ hp => exact Option.noConfusion h
      case _ parent hp =>
        refine layout_children_frame cs f ih _ _ _ _ _ _ _ h k ?_
        intro c hcmem
        have hedge : (nid, c) ∈ cs := mem_childrenOf.mp hcmem
        constructor
        · intro he
          subst he
          exact hk (Relation.TransGen.single hedge)
        · intro hd
          exact hk (Relation.TransGen.head hedge hd)

theorem reached_in_closure {cs : List (String × String)}
    {start : String} {slvl : ℕ} {pid : String} {L : ℕ}
    (h : ReachedFrom cs start slvl pid L) :
    pid = start ∨ Desc cs start pid := by
  induction h with
  | base => exact Or.inl rfl
  | step _ hmem ih =>
    have hedge := mem_childrenOf.mp hmem
    cases ih with
    | inl he =>
      subst he
      exact Or.inr (Relation.TransGen.single hedge)
    | inr hd => exact Or.inr (hd.tail hedge)

theorem reached_of_no_children {cs : List (String × String)}
    {nid : String} {lvl : ℕ} (hempty : childrenOf cs nid = [])
    {pid : String} {L : ℕ} (h : ReachedFrom cs nid lvl pid L) :
    pid = nid ∧ L = lvl := by
  induction h with
  | base => exact ⟨rfl, rfl⟩
  | step _ hmem ih =>
    obtain ⟨he, _⟩ := ih
    subst he
    rw [hempty] at hmem
    exact absurd hmem (List.not_mem_nil _)

theorem reached_decompose {cs : List (String × String)}
    {nid : String} {lvl : ℕ} {pid : String} {L : ℕ}
    (h : ReachedFrom cs nid lvl pid L) :
    (pid = nid ∧ L = lvl) ∨
      ∃ c ∈ childrenOf cs nid, ReachedFrom cs c (lvl + 1) pid L := by
  induction h with
  | base => exact Or.inl ⟨rfl, rfl⟩
  | step _ hmem ih =>
    cases ih with
    | inl he =>
      obtain ⟨he1, he2⟩ := he
      subst he1
      subst he2
      exact Or.inr ⟨_, hmem, ReachedFrom.base⟩
    | inr hex =>
      obtain ⟨c, hc, hr⟩ := hex
      exact Or.inr ⟨c, hc, hr.step hmem⟩

theorem dictLookup_of_mem {m : NodesMap} {k : String} {v : TreeNode3D}
    (h : (k, v) ∈ m) : ∃ v', dictLookup m k = some v' := by
  induction m with
  | nil => exact absurd h (List.not_mem_nil _)
  | cons p rest ih =>
    obtain ⟨k0, v0⟩ := p
    by_cases h0 : k0 = k
    · exact ⟨v0, by simp [dictLookup, h0]⟩
    · rcases List.mem_cons.mp h with he | hrest
      · exact absurd (congrArg Prod.fst he).symm h0
      · obtain ⟨v', hv'⟩ := ih hrest
        exact ⟨v', by simp [dictLookup, h0, hv']⟩

theorem layout_children_place (cs : List (String × String)) {rk : String → ℕ}
    (hrk : ∀ a b, (a, b) ∈ cs → rk a < rk b)
    (hnd : (cs.map Prod.snd).Nodup) (f : ℕ)
    (hPL : ∀ nid lvl m m', layout_level cs f nid lvl m = some m' →
      ∀ pid L, ReachedFrom cs nid lvl pid L →
        ∀ i cid, (childrenOf cs pid).get? i = some cid →
          PlacedChild cs m' pid L i cid) :
    ∀ todo done nid lvl m m',
      layout_children cs f nid lvl (childrenOf cs nid).length done.length
        todo m = some m' →
      childrenOf cs nid = done ++ todo →
      (∀ j cid, todo.get? j = some cid →
          PlacedChild cs m' nid lvl (done.length + j) cid) ∧
      (∀ c ∈ todo, ∀ pid L, ReachedFrom cs c (lvl + 1) pid L →
        ∀ i' cid', (childrenOf cs pid).get? i' = some cid' →
          PlacedChild cs m' pid L i' cid') := by
  intro todo
  induction todo with
  | nil =>
    intro done nid lvl m m' _ _
    constructor
    · intro j cid hj
      simp at hj
    · intro c hc
      exact absurd hc (List.not_mem_nil _)
  | cons c rest ih =>
    intro done nid lvl m m' h hsplit
    simp only [layout_children] at h
    split at h
    case _ parent child hp hc =>
      split at h
      case _ hrec => exact Option.noConfusion h
      case _ m2 hrec =>
        have hcmem : c ∈ childrenOf cs nid := by
          rw [hsplit]
          exact List.mem_append_right _ (List.mem_cons_self _ _)
        have hedge : (nid, c) ∈ cs := mem_childrenOf.mp hcmem
        have hch_nodup : (childrenOf cs nid).Nodup := childrenOf_nodup hnd nid
        have hcrest : c ∉ rest := by
          rw [hsplit] at hch_nodup
          exact (List.nodup_cons.mp hch_nodup.of_append_right).1
        have hrestmem : ∀ c' ∈ rest, (nid, c') ∈ cs := by
          intro c' h'
          refine mem_childrenOf.mp ?_
          rw [hsplit]
          exact List.mem_append_right _ (List.mem_cons_of_mem _ h')
        have hLframe : ∀ nid' lvl' mm mm',
            layout_level cs f nid' lvl' mm = some mm' →
            ∀ k, ¬ Desc cs nid' k → dictLookup mm' k = dictLookup mm k :=
          fun nid' lvl' mm mm' hh k hk =>
            layout_level_frame cs f nid' lvl' mm mm' hh k hk
        have hframe_rest : ∀ x, (x = c ∨ Desc cs c x) →
            dictLookup m' x = dictLookup m2 x := by
          intro x hx
          refine layout_children_frame cs f hLframe rest nid lvl _ _ m2 m'
            h x ?_
          intro c' hc'
          have hedge' : (nid, c') ∈ cs := hrestmem c' hc'
          have hcc' : c ≠ c' := fun he => hcrest (he ▸ hc')
          cases hx with
          | inl hxc =>
            subst hxc
            exact ⟨fun he => hcc' he.symm,
              fun hd => no_sibling_desc hrk hnd hedge hedge' hd⟩
          | inr hdx =>
            constructor
            · intro he
              subst he
              exact no_sibling_desc hrk hnd hedge' hedge hdx
            · intro hd'
              rcases anc_comparable hnd hdx hd' with he | hd1 | hd2
              · exact hcc' he
              · exact no_sibling_desc hrk hnd hedge' hedge hd1
              · exact no_sibling_desc hrk hnd hedge hedge' hd2
        have hframe_rec : ∀ x, ¬ Desc cs c x →
            dictLookup m2 x = dictLookup _ x :=
          fun x hx => layout_level_frame cs f c (lvl + 1) _ m2 hrec x hx
        have hnidc : nid ≠ c := by
          intro he
          exact lt_irrefl _ (hrk _ _ (show (nid, nid) ∈ cs from he ▸ hedge))
        have hdesc_c_nid : ¬ Desc cs c nid := fun hd =>
          lt_irrefl _ (lt_trans (hrk _ _ hedge) (desc_rank hrk hd))
        have hnid_m1 : dictLookup
            (dictModify m c fun nd => nd.set_position
              (parent.x + 120 / ((lvl : ℝ) + 1) *
                Real.sin (2 * Real.pi * (done.length : ℝ) /
                  ((childrenOf cs nid).length : ℝ)))
              (parent.y - 60 - (lvl : ℝ) * 20)
              (parent.z + 120 / ((lvl : ℝ) + 1) *
                Real.cos (2 * Real.pi * (done.length : ℝ) /
                  ((childrenOf cs nid).length : ℝ)))) nid = some parent := by
          rw [dictLookup_dictModify_ne _ _ _ _ hnidc]
          exact hp
        have hnid_m2 : dictLookup m2 nid = some parent := by
          rw [hframe_rec nid hdesc_c_nid]
          exact hnid_m1
        have hnid_m' : dictLookup m' nid = some parent := by
          have := layout_children_frame cs f hLframe rest nid lvl _ _ m2 m'
            h nid ?_
          · rw [this]; exact hnid_m2
          · intro c' hc'
            have hedge' : (nid, c') ∈ cs := hrestmem c' hc'
            constructor
            · intro he
              exact lt_irrefl _ (hrk _ _ (show (nid, nid) ∈ cs from
                he ▸ hedge'))
            · intro hd
              exact lt_irrefl _ (lt_trans (hrk _ _ hedge')
                (desc_rank hrk hd))
        have hcc : ¬ Desc cs c c := fun hd => no_self_desc hrk hd
        have hc_m1 : dictLookup
            (dictModify m c fun nd => nd.set_position
              (parent.x + 120 / ((lvl : ℝ) + 1) *
                Real.sin (2 * Real.pi * (done.length : ℝ) /
                  ((childrenOf cs nid).length : ℝ)))
              (parent.y - 60 - (lvl : ℝ) * 20)
              (parent.z + 120 / ((lvl : ℝ) + 1) *
                Real.cos (2 * Real.pi * (done.length : ℝ) /
                  ((childrenOf cs nid).length : ℝ)))) c =
            some (child.set_position
              (parent.x + 120 / ((lvl : ℝ) + 1) *
                Real.sin (2 * Real.pi * (done.length : ℝ) /
                  ((childrenOf cs nid).length : ℝ)))
              (parent.y - 60 - (lvl : ℝ) * 20)
              (parent.z + 120 / ((lvl : ℝ) + 1) *
                Real.cos (2 * Real.pi * (done.length : ℝ) /
                  ((childrenOf cs nid).length : ℝ)))) := by
          rw [dictLookup_dictModify_self, hc]
          rfl
        have hc_m2 : dictLookup m2 c = some (child.set_position
            (parent.x + 120 / ((lvl : ℝ) + 1) *
              Real.sin (2 * Real.pi * (done.length : ℝ) /
                ((childrenOf cs nid).length : ℝ)))
            (parent.y - 60 - (lvl : ℝ) * 20)
            (parent.z + 120 / ((lvl : ℝ) + 1) *
              Real.cos (2 * Real.pi * (done.length : ℝ) /
                ((childrenOf cs nid).length : ℝ)))) := by
          rw [hframe_rec c hcc]
          exact hc_m1
        have hc_m' : dictLookup m' c = some (child.set_position
            (parent.x + 120 / ((lvl : ℝ) + 1) *
              Real.sin (2 * Real.pi * (done.length : ℝ) /
                ((childrenOf cs nid).length : ℝ)))
            (parent.y - 60 - (lvl : ℝ) * 20)
            (parent.z + 120 / ((lvl : ℝ) + 1) *
              Real.cos (2 * Real.pi * (done.length : ℝ) /
                ((childrenOf cs nid).length : ℝ)))) := by
          rw [hframe_rest c (Or.inl rfl)]
          exact hc_m2
        have hsplit' : childrenOf cs nid = (done ++ [c]) ++ rest := by
          rw [hsplit, List.append_assoc]
          rfl
        have hlen : (done ++ [c]).length = done.length + 1 := by simp
        have hih := ih (done ++ [c]) nid lvl m2 m' (by rw [hlen]; exact h)
          hsplit'
        constructor
        · intro j cid hj
          cases j with
          | zero =>
            have hcid : c = cid := by
              simpa using hj
            subst hcid
            refine ⟨parent, _, hnid_m', hc_m', ?_, ?_, ?_⟩ <;>
              simp [TreeNode3D.set_position]
          | succ j =>
            have hj' : rest.get? j = some cid := by simpa using hj
            have := hih.1 j cid hj'
            have heq : (done ++ [c]).length + j = done.length + (j + 1) := by
              simp [hlen]
              omega
            rw [heq] at this
            exact this
        · intro c0 hc0 pid L hreach i' cid' hi'
          rcases List.mem_cons.mp hc0 with rfl | hc0rest
          · have hplaced := hPL c0 (lvl + 1) _ m2 hrec pid L hreach i' cid'
              hi'
            have hpidset : pid = c0 ∨ Desc cs c0 pid :=
              reached_in_closure hreach
            have hcid'desc : Desc cs c0 cid' := by
              have hedge' : (pid, cid') ∈ cs := by
                refine mem_childrenOf.mp ?_
                exact List.get?_mem hi'
              cases hpidset with
              | inl he =>
                subst he
                exact Relation.TransGen.single hedge'
              | inr hd => exact hd.tail hedge'
            obtain ⟨pn, cn, h1, h2, h3⟩ := hplaced
            refine ⟨pn, cn, ?_, ?_, h3⟩
            · rw [hframe_rest pid hpidset]
              exact h1
            · rw [hframe_rest cid' (Or.inr hcid'desc)]
              exact h2
          · exact hih.2 c0 hc0rest pid L hreach i' cid' hi'
    case _ h1 h2 => exact Option.noConfusion h

theorem layout_level_place (cs : List (String × String)) {rk : String → ℕ}
    (hrk : ∀ a b, (a, b) ∈ cs → rk a < rk b)
    (hnd : (cs.map Prod.snd).Nodup) :
    ∀ f nid lvl m m', layout_level cs f nid lvl m = some m' →
      ∀ pid L, ReachedFrom cs nid lvl pid L →
        ∀ i cid, (childrenOf cs pid).get? i = some cid →
          PlacedChild cs m' pid L i cid := by
  intro f
  induction f with
  | zero =>
    intro nid lvl m m' h
    simp [layout_level] at h
  | succ f ih =>
    intro nid lvl m m' h pid L hreach i cid hget
    simp only [layout_level] at h
    split at h
    case _ hempty =>
      obtain rfl := Option.some.inj h
      obtain ⟨he, _⟩ := reached_of_no_children hempty hreach
      subst he
      rw [hempty] at hget
      simp at hget
    case _ hne =>
      split at h
      case _ hp => exact Option.noConfusion h
      case _ parent hp =>
        have hmain := layout_children_place cs hrk hnd f ih
          (childrenOf cs nid) [] nid lvl m m' h (by simp)
        rcases reached_decompose hreach with ⟨he, hL⟩ | ⟨c, hcmem, hr⟩
        · subst he
          subst hL
          have := hmain.1 i cid hget
          simpa using this
        · exact hmain.2 c hcmem pid L hr i cid hget

/-- C5 (amended): for a connection set that is acyclic (witnessed by a
rank function) and in which each node is the target of at most one
connection, with the root — the first node whose parent id is null,
non-empty, and the target of no connection — whenever the layout pass
completes, the root sits at the world origin and every node reached at
recursion level `L` has its `i`-th child (of `n`) placed at angle
`2πi/n` on the circle of radius `120/(L+1)` centered on its position,
offset downward by `60 + 20·L` — a vertical step that grows with the
level rather than staying constant.  Re-running the layout on the same
connections yields identical positions because the embedded pass is a
pure function of the node and connection sets. -/
theorem layout_tree_spec (s : ViewState) (fuel : ℕ) (s' : ViewState)
    (rk : String → ℕ)
    (hrk : ∀ a b, (a, b) ∈ s.connections → rk a < rk b)
    (hnd : (s.connections.map Prod.snd).Nodup)
    (root_id : String)
    (hroot : findRootId s.nodes = some root_id)
    (hroot_ne : root_id ≠ "")
    (hroot_nd : ∀ a, (a, root_id) ∉ s.connections)
    (hrun : layout_tree fuel s = some s') :
    (∃ rn, dictLookup s'.nodes root_id = some rn ∧
        rn.x = 0 ∧ rn.y = 0 ∧ rn.z = 0) ∧
      (∀ pid L, ReachedFrom s.connections root_id 0 pid L →
        ∀ i cid, (childrenOf s.connections pid).get? i = some cid →
          PlacedChild s.connections s'.nodes pid L i cid) := by
  simp only [layout_tree, hroot, if_neg hroot_ne] at hrun
  split at hrun
  case _ hlev => exact Option.noConfusion hrun
  case _ m2 hlev =>
    obtain rfl := (Option.some.inj hrun).symm
    have hdesc_root : ¬ Desc s.connections root_id root_id := by
      intro hd
      cases hd with
      | single h1 => exact hroot_nd _ h1
      | tail _ h2 => exact hroot_nd _ h2
    obtain ⟨pr, hfind, hpr1⟩ := Option.map_eq_some'.mp hroot
    have hmem : pr ∈ s.nodes := List.mem_of_find?_eq_some hfind
    have hmem' : (root_id, pr.2) ∈ s.nodes := by
      rw [← hpr1]
      exact hmem
    obtain ⟨v0, hv0⟩ := dictLookup_of_mem hmem'
    have hm0 : dictLookup (dictModify s.nodes root_id fun nd =>
        nd.set_position 0 0 0) root_id = some (v0.set_position 0 0 0) := by
      rw [dictLookup_dictModify_self, hv0]
      rfl
    have hm2root : dictLookup m2 root_id = some (v0.set_position 0 0 0) := by
      rw [layout_level_frame s.connections fuel root_id 0 _ m2 hlev root_id
        hdesc_root]
      exact hm0
    constructor
    · exact ⟨v0.set_position 0 0 0, hm2root, rfl, rfl, rfl⟩
    · intro pid L hreach i cid hget
      exact layout_level_place s.connections hrk hnd fuel root_id 0 _ m2
        hlev pid L hreach i cid hget

theorem layout_tree_eval : layout_tree 3 wStateLay = some wSLay' := by
  simp only [wStateLay, wStatePress, wSLay', wLayNodeR, wLayNodeA, wLayNodeB,
    TreeNode3D.init, TreeNode3D.set_position, wRng]
  simp [layout_tree, layout_level, layout_children, findRootId, childrenOf,
    dictModify, dictLookup]
  norm_num [TreeNode3D.set_position, TreeNode3D.mk.injEq, Real.sin_zero,
    Real.cos_zero]

/-- Counterexample for C5 as stated: laying out the chain root → a → b
puts the root at `y = 0`, `a` at `y = -60` and `b` at `y = -140`, so the
level-0 → 1 vertical step is 60 while the level-1 → 2 step is 80 — the
code offsets each level by `60 + 20·level`, not by one constant vertical
step. -/
theorem layout_constant_step_counterexample :
    layout_tree 3 wStateLay = some wSLay' ∧
      (dictLookup wSLay'.nodes "root").map TreeNode3D.y = some 0 ∧
      (dictLookup wSLay'.nodes "a").map TreeNode3D.y = some (-60) ∧
      (dictLookup wSLay'.nodes "b").map TreeNode3D.y = some (-140) ∧
      ¬ ((0 : ℝ) - -60 = (-60 : ℝ) - -140) := by
  refine ⟨layout_tree_eval, ?_, ?_, ?_, by norm_num⟩ <;> rfl

/-- Witness for C5 on the chain scene root → a → b. -/
theorem layout_tree_spec_witness :
    (∃ rn, dictLookup wSLay'.nodes "root" = some rn ∧
        rn.x = 0 ∧ rn.y = 0 ∧ rn.z = 0) ∧
      PlacedChild wStateLay.connections wSLay'.nodes "root" 0 0 "a" ∧
      PlacedChild wStateLay.connections wSLay'.nodes "a" 1 0 "b" := by
  have hrk : ∀ a b, (a, b) ∈ wStateLay.connections → wRk a < wRk b := by
    intro a b h
    have h' : (a, b) = ("root", "a") ∨ (a, b) = ("a", "b") := by
      simpa [wStateLay, wStatePress] using h
    rcases h' with he | he <;>
      · obtain ⟨rfl, rfl⟩ := Prod.mk.inj he
        decide
  have hnd : (wStateLay.connections.map Prod.snd).Nodup := by decide
  have hroot_nd : ∀ a, (a, "root") ∉ wStateLay.connections := by
    intro a h
    simp [wStateLay, wStatePress] at h
  have h := layout_tree_spec wStateLay 3 wSLay' wRk hrk hnd "root" rfl
    (by decide) hroot_nd layout_tree_eval
  refine ⟨h.1, ?_, ?_⟩
  · exact h.2 "root" 0 ReachedFrom.base 0 "a" rfl
  · refine h.2 "a" 1 (ReachedFrom.base.step ?_) 0 "b" rfl
    decide

/-- Witness for C10: a release with a dragging node clears its flag; a
release with nothing dragging leaves the node set untouched. -/
theorem mouseRelease_spec_witness :
    dictLookup (mouseReleaseEvent wStateDrag).nodes "a" =
        some { wNodeA with dragging := false } ∧
      (mouseReleaseEvent wStateIdle).nodes = wStateIdle.nodes := by
  constructor
  · exact (mouseRelease_spec wStateDrag).2.2.2.2.2.2.2.2.1 "a" wNodeA rfl
  · refine (mouseRelease_spec wStateIdle).2.2.2.2.2.2.2.2.2 ?_
    intro p hp
    have : p = ("b", wNodeB) := by
      simpa [wStateIdle, wStateDrag] using hp
    rw [this]
    rfl

end ThreeDView
